import Mathlib

deriving instance DecidableEq for Except

/-!
Verification of the independent-per-resource GP posterior state
(`IndependentGPPerResourcePosteriorState` in
`bayesopt/gpautograd/independent/posterior_state.py`) and of the
multi-fidelity searcher (`GPMultiFidelitySearcher` in
`gp_multifidelity_searcher.py`).

Real values are modelled as rationals.  An extended feature row is the
configuration vector with the resource level appended as the last
coordinate.  The per-resource single-fidelity Gaussian process
(`GaussProcPosteriorState`, outside the analysed sources) is abstracted as
an explicit backend of functions; the routing code of the
independent-per-resource state is embedded faithfully, including the
argsort / group / concatenate / scatter-back mechanics of `predict` and
the index-scatter of `sample_marginals` / `sample_joint`.
-/

namespace SyneTune

/-- Inner configuration feature vector x. -/
abbrev Feature := List ℚ

/-- Extended feature row: configuration vector with the resource level
appended as the last coordinate. -/
abbrev ExtRow := List ℚ

/-- Head gradients passed to backward_gradient (opaque payload). -/
abbrev HeadGradients := List (String × List ℚ)

/-- Configuration part of an extended row (all but the last coordinate). -/
def dec_x (row : ExtRow) : Feature := row.dropLast

/-- Resource part of an extended row (the last coordinate). -/
def dec_r (row : ExtRow) : ℚ := row.getLastD 0

/-- Modelled from the spec: `decode_extended_features` of
`datatypes/hp_ranges_impl.py` is not among the analysed sources; the spec
states decoding is a pure split with the resource always the last
coordinate. -/
def decode_extended_features (rows : List ExtRow) : List Feature × List ℚ :=
  (rows.map dec_x, rows.map dec_r)

/-- Modelled from the spec: the single-fidelity per-resource Gaussian
process `GaussProcPosteriorState` is not among the analysed sources.  It
is abstracted as a backend of functions; the first argument is the
resource level (standing for that resource's mean function mu_r and
covariance scale c_r together with the shared kernel and noise variance),
the training-row argument is the data slice the posterior was built from.
Per the spec, `predict` returns a posterior mean and variance per test row
and marginal sampling is row-wise; joint sampling acts on a whole batch. -/
structure GPBackend where
  predictOne : ℚ → List (Feature × ℚ) → Feature → ℚ × ℚ
  sampleMarginalsOne : ℚ → List (Feature × ℚ) → Feature → Nat → Nat → List ℚ
  sampleJoint : Nat → ℚ → List (Feature × ℚ) → List Feature → Nat → List (List ℚ)
  backwardGradient : ℚ → List (Feature × ℚ) → Feature → HeadGradients → ℚ → ℚ → List ℚ
  nll : ℚ → List (Feature × ℚ) → ℚ
  priorMean : ℚ → Feature → ℚ

/-- The data of an `IndependentGPPerResourcePosteriorState`: the extended
training rows with their targets (one fantasy column), and the supported
resource levels, i.e. the common key set of the `mean` and
`covariance_scale` dictionaries. -/
structure IndepState where
  trainRows : List (ExtRow × ℚ)
  meanKeys : List ℚ

/-- Training rows whose decoded resource equals r, with decoded inner
features — `rows = np.flatnonzero(resources == resource)` applied to the
decoded training data in `_compute_states`. -/
def trainRowsAt (s : IndepState) (r : ℚ) : List (Feature × ℚ) :=
  (s.trainRows.filter (fun p => decide (dec_r p.1 = r))).map
    (fun p => (dec_x p.1, p.2))

/-- The `_states` dictionary built by `_compute_states`: one per-resource
posterior for each supported resource level with at least one training
row, keyed in the iteration order of `mean`.  Each posterior is
represented by the training slice it holds. -/
def IndepState.states (s : IndepState) : List (ℚ × List (Feature × ℚ)) :=
  s.meanKeys.filterMap (fun r =>
    let rows := trainRowsAt s r
    if rows.isEmpty then none else some (r, rows))

/-- Resource levels covered by a per-resource posterior
(`self._states.keys()`). -/
def stateKeys (s : IndepState) : List ℚ := s.states.map Prod.fst

/-- Dictionary lookup `self._states[r]`. -/
def lookupState (s : IndepState) (r : ℚ) : Option (List (Feature × ℚ)) :=
  (s.states.find? (fun p => decide (p.1 = r))).map Prod.snd

/-- Failures of the posterior-state operations.  The spec's error taxonomy
names the failure of a prediction at a resource with no trained posterior
`UnsupportedResourceError`. -/
inductive PSError where
  | unsupportedResource (r : ℚ)
deriving DecidableEq

/-- neg_log_likelihood: the sum of the per-resource posteriors' own
negative log-likelihoods
(`anp.sum([state.neg_log_likelihood() for state in self._states.values()])`). -/
def neg_log_likelihood (s : IndepState) (gp : GPBackend) : ℚ :=
  (s.states.map (fun p => gp.nll p.1 p.2)).sum

/-- Sequencing of a fallible computation over a list, as a Python loop or
comprehension that stops at the first raised error. -/
def collectE {ε α β : Type} (f : α → Except ε β) : List α → Except ε (List β)
  | [] => .ok []
  | a :: t => do
    let b ← f a
    let bs ← collectE f t
    return b :: bs

/-- One insertion step of the index sort underlying `np.argsort`. -/
def argsortInsert (keys : List ℚ) (i : Nat) : List Nat → List Nat
  | [] => [i]
  | j :: t =>
    if keys.getD i 0 ≤ keys.getD j 0 then i :: j :: t
    else j :: argsortInsert keys i t

/-- `np.argsort(keys)`: indices 0..n-1 ordered by their key values
(realised here as an insertion sort; only the fact that the result is a
permutation of `range n` is used, so the tie-breaking of `np.argsort` is
immaterial). -/
def argsort (keys : List ℚ) : List Nat :=
  (List.range keys.length).foldr (argsortInsert keys) []

/-- Maximal runs of consecutive entries sharing their first component;
this realises the `change_pos` slicing of `predict`, which cuts the
sorted batch at every position where the resource value changes. -/
def groupRuns {α : Type} : List (ℚ × α) → List (List (ℚ × α))
  | [] => []
  | p :: t =>
    match groupRuns t with
    | [] => [[p]]
    | g :: gs =>
      match g with
      | [] => [p] :: gs
      | q :: _ => if p.1 = q.1 then (p :: g) :: gs else [p] :: g :: gs

/-- Indexed assignment `acc[i] = v` folded over a list of (index, value)
pairs — the elementwise content of the numpy fancy assignments
`reverse_ind[ind] = np.arange(n)` and `samples[rows] = values`. -/
def setPairs {α : Type} (acc : List α) (pairs : List (Nat × α)) : List α :=
  pairs.foldl (fun a p => a.set p.1 p.2) acc

/-- `reverse_ind` of `predict`: an array of length n with
`reverse_ind[ind[j]] = j`. -/
def reverseIndex (ind : List Nat) (n : Nat) : List Nat :=
  setPairs (List.replicate n 0) (ind.zip (List.range n))

/-- The numpy scatter pattern `samples = np.zeros(shp)` followed by
`samples[rows] = vals` for each group: start from a default-filled array
of length n and perform the indexed assignments of every group. -/
def scatterList {α : Type} (n : Nat) (d : α) (updates : List (List Nat × List α)) :
    List α :=
  updates.foldl (fun acc u => setPairs acc (u.1.zip u.2)) (List.replicate n d)

/-- The body of the per-group list comprehension in `predict`:
`self._states[resources[start]].predict(test_features[start:end])`, with
the group's resource read off its first entry; per-resource batch
prediction is the row-wise map of the posterior's per-row prediction. -/
def predictGroup (s : IndepState) (gp : GPBackend) (g : List (ℚ × Feature)) :
    Except PSError (List (ℚ × ℚ)) :=
  match lookupState s (g.headD (0, [])).1 with
  | some trows =>
      Except.ok (g.map (fun p => gp.predictOne (g.headD (0, [])).1 trows p.2))
  | none => Except.error (PSError.unsupportedResource (g.headD (0, [])).1)

/-- predict of `IndependentGPPerResourcePosteriorState`: decode the test
rows; if they all share one resource, delegate to that resource's
posterior; otherwise argsort by resource, predict each contiguous
resource group through its own posterior, concatenate and permute the
results back to the caller's row order via `reverse_ind`.  A resource
with no per-resource posterior makes the dictionary lookup
`self._states[r]` fail. -/
def IndepState.predict (s : IndepState) (gp : GPBackend) (testRows : List ExtRow) :
    Except PSError (List (ℚ × ℚ)) :=
  let xs := (decode_extended_features testRows).1
  let rs := (decode_extended_features testRows).2
  if rs.dedup.length = 1 then
    let r := rs.headD 0
    match lookupState s r with
    | some trows => .ok (xs.map (gp.predictOne r trows))
    | none => .error (.unsupportedResource r)
  else
    let n := testRows.length
    let ind := argsort rs
    let sortedPairs := ind.map (fun i => (rs.getD i 0, xs.getD i []))
    let groups := groupRuns sortedPairs
    match collectE (predictGroup s gp) groups with
    | .error e => .error e
    | .ok groupVals =>
        .ok ((reverseIndex ind n).map (fun j => (groupVals.flatten).getD j (0, 0)))

/-- `np.flatnonzero(resources == r)`: the positions of the rows carrying
resource r, in increasing order. -/
def flatnonzeroEq (rs : List ℚ) (r : ℚ) : List Nat :=
  (List.range rs.length).filter (fun i => decide (rs.getD i 0 = r))

/-- The per-resource body of the `_split_features` loop: check coverage
when asked, then collect the features and positions of the rows carrying
resource r. -/
def splitOne (s : IndepState) (check : Bool) (xs : List Feature) (rs : List ℚ)
    (r : ℚ) : Except PSError (ℚ × List Feature × List Nat) :=
  if check ∧ r ∉ stateKeys s then Except.error (PSError.unsupportedResource r)
  else
    let idxs := flatnonzeroEq rs r
    Except.ok (r, idxs.map (fun i => xs.getD i []), idxs)

/-- `_split_features`: decode the test rows and, for each distinct
resource value, return that resource together with the features and
positions of its rows; with `check` set, a resource not covered by a
per-resource posterior is an `UnsupportedResourceError` (the assertion in
the source). -/
def IndepState.splitFeatures (s : IndepState) (rows : List ExtRow) (check : Bool) :
    Except PSError (List (ℚ × List Feature × List Nat)) :=
  let xs := (decode_extended_features rows).1
  let rs := (decode_extended_features rows).2
  collectE (splitOne s check xs rs) rs.dedup

/-- sample_marginals: split the batch per resource (failing on a resource
with no posterior), draw each group's marginal samples from its
per-resource posterior, and scatter them back to the original row
positions of the group (`samples[rows] = s_margs`). -/
def IndepState.sample_marginals (s : IndepState) (gp : GPBackend)
    (testRows : List ExtRow) (numSamples seed : Nat) :
    Except PSError (List (List ℚ)) :=
  match s.splitFeatures testRows true with
  | .error e => .error e
  | .ok groups =>
      let n := testRows.length
      let updates := groups.map (fun u =>
        (u.2.2, u.2.1.map (fun x =>
          gp.sampleMarginalsOne u.1 ((lookupState s u.1).getD []) x numSamples seed)))
      .ok (scatterList n (List.replicate numSamples 0) updates)

/-- The per-group body of the `sample_joint` loop: a resource with a
posterior receives that posterior's joint sample, a merely supported
resource receives the prior mean `self._mean[r](features)` broadcast over
the sample columns, and a resource outside the supported key set makes
the dictionary lookup `self._mean[r]` fail. -/
def sampleJointGroup (s : IndepState) (gp : GPBackend) (numSamples seed : Nat)
    (u : ℚ × List Feature × List Nat) :
    Except PSError (List Nat × List (List ℚ)) :=
  match lookupState s u.1 with
  | some trows =>
      Except.ok (u.2.2, gp.sampleJoint seed u.1 trows u.2.1 numSamples)
  | none =>
      if u.1 ∈ s.meanKeys then
        Except.ok (u.2.2, u.2.1.map (fun x =>
          List.replicate numSamples (gp.priorMean u.1 x)))
      else Except.error (PSError.unsupportedResource u.1)

/-- The per-group sample block assigned by `sample_joint`
(`samples[rows] = s_joint`): the group's joint posterior sample when the
resource has a posterior, else the prior mean broadcast over the sample
columns. -/
def jointGroupVals (s : IndepState) (gp : GPBackend) (numSamples seed : Nat)
    (rs : List ℚ) (xs : List Feature) (r : ℚ) : List (List ℚ) :=
  match lookupState s r with
  | some trows => gp.sampleJoint seed r trows
      ((flatnonzeroEq rs r).map (fun i => xs.getD i [])) numSamples
  | none => ((flatnonzeroEq rs r).map (fun i => xs.getD i [])).map
      (fun x => List.replicate numSamples (gp.priorMean r x))

/-- sample_joint: split the batch per resource without the coverage
check; a group whose resource has a posterior receives that posterior's
joint sample, a group whose resource is merely in the supported key set
receives the prior mean `self._mean[r](features)` in every sample column
(no random draw — the Kriging believer heuristic); a resource outside the
key set makes the dictionary lookup `self._mean[r]` fail. -/
def IndepState.sample_joint (s : IndepState) (gp : GPBackend)
    (testRows : List ExtRow) (numSamples seed : Nat) :
    Except PSError (List (List ℚ)) :=
  match s.splitFeatures testRows false with
  | .error e => .error e
  | .ok groups =>
      let n := testRows.length
      match collectE (sampleJointGroup s gp numSamples seed) groups with
      | .error e => .error e
      | .ok updates => .ok (scatterList n (List.replicate numSamples 0) updates)

/-- backward_gradient: decode the single extended input row, route the
configuration coordinates through the posterior of that row's resource,
and append a zero gradient for the resource coordinate, giving back the
input's extended shape. -/
def IndepState.backward_gradient (s : IndepState) (gp : GPBackend)
    (input : ExtRow) (headGradients : HeadGradients) (meanData stdData : ℚ) :
    Except PSError (List ℚ) :=
  let innerInput := dec_x input
  let resource := dec_r input
  match lookupState s resource with
  | some trows =>
      .ok (gp.backwardGradient resource trows innerInput headGradients
            meanData stdData ++ [0])
  | none => .error (.unsupportedResource resource)

/-- The value `predict` produces for one test row: the posterior mean and
variance of the row's resource's per-resource posterior at the row's
configuration features. -/
def predRow (s : IndepState) (gp : GPBackend) (row : ExtRow) : ℚ × ℚ :=
  gp.predictOne (dec_r row) ((lookupState s (dec_r row)).getD []) (dec_x row)

/-- A configuration: mapping from hyperparameter name to value. -/
abbrev Config := List (String × ℚ)

/-- A pending evaluation: the promise of an observation for a trial at a
resource level. -/
structure PendingEval where
  trial_id : String
  resource : Nat
deriving DecidableEq

/-- A recorded observation of a trial's metric at a resource level. -/
structure Observation where
  trial_id : String
  resource : Nat
  metric : ℚ
deriving DecidableEq

/-- Modelled from the spec: the trial ledger (`TuningJobState`, outside
the analysed sources) — the authoritative record of configurations,
append-only observations, the pending set and failed trials. -/
structure TuningJobState where
  configs : List (String × Config)
  observations : List Observation
  pending : List PendingEval
  failed : List String
deriving DecidableEq

/-- Modelled from the spec: `state.is_pending(trial_id, resource)`. -/
def is_pending (st : TuningJobState) (t : String) (r : Nat) : Prop :=
  (⟨t, r⟩ : PendingEval) ∈ st.pending

instance (st : TuningJobState) (t : String) (r : Nat) :
    Decidable (is_pending st t r) :=
  inferInstanceAs (Decidable ((⟨t, r⟩ : PendingEval) ∈ st.pending))

/-- Modelled from the spec: `state.is_labeled(trial_id, resource)` — an
observation for the pair is already recorded. -/
def is_labeled (st : TuningJobState) (t : String) (r : Nat) : Prop :=
  ∃ o ∈ st.observations, o.trial_id = t ∧ o.resource = r

instance (st : TuningJobState) (t : String) (r : Nat) :
    Decidable (is_labeled st t r) :=
  inferInstanceAs (Decidable (∃ o ∈ st.observations, o.trial_id = t ∧ o.resource = r))

/-- Modelled from the spec: `state_transformer.append_trial(trial_id,
config, resource)` — registers the pending evaluation and records the
configuration if the trial is new and a configuration was passed. -/
def append_trial (st : TuningJobState) (t : String) (cfg : Option Config)
    (r : Nat) : TuningJobState :=
  { st with
    pending := st.pending ++ [⟨t, r⟩]
    configs :=
      if (st.configs.find? (fun p => decide (p.1 = t))).isSome then st.configs
      else
        match cfg with
        | some c => st.configs ++ [(t, c)]
        | none => st.configs }

/-- Modelled from the spec: the state transformer's
`filter_pending_evaluations(filter_pred)` removes every pending
evaluation satisfying the predicate. -/
def filter_pending_evaluations (st : TuningJobState)
    (pred : PendingEval → Bool) : TuningJobState :=
  { st with pending := st.pending.filter (fun p => !(pred p)) }

/-- `cleanup_pending` of `GPMultiFidelitySearcher`: remove all pending
evaluations of the trial, via the predicate `x.trial_id == trial_id`. -/
def cleanup_pending (st : TuningJobState) (t : String) : TuningJobState :=
  filter_pending_evaluations st (fun x => decide (x.trial_id = t))

/-- Modelled from the spec: `state_transformer.mark_trial_failed` —
records the trial as failed so it is never suggested again. -/
def mark_trial_failed (st : TuningJobState) (t : String) : TuningJobState :=
  { st with failed := st.failed ++ [t] }

/-- Modelled from the spec: failed trials' configurations are never
suggested or reused as search history inputs. -/
def eligible_for_suggestion (st : TuningJobState) (t : String) : Prop :=
  t ∉ st.failed

/-- Modelled from the spec: the skip-optimization / fitted-hyperparameter
cache restored with a snapshot; its contents are opaque to the claims. -/
structure SkipOptimization where
  cache : List (String × ℚ)
deriving DecidableEq

/-- The model state transformer owned by a live searcher: the ledger
state plus the skip-optimization cache. -/
structure TransformerState where
  state : TuningJobState
  skip_optimization : SkipOptimization
deriving DecidableEq

/-- A `GPMultiFidelitySearcher`: its handle on the state transformer,
`None` once the searcher has been invalidated by `clone_from_state`. -/
structure Searcher where
  state_transformer : Option TransformerState
deriving DecidableEq

/-- Modelled from the spec: a serialized snapshot containing the full
ledger plus the cached hyperparameters (`decode_state` and
`_restore_from_state` are outside the analysed sources; the snapshot is
taken already decoded). -/
structure SerializedState where
  state : TuningJobState
  skip_optimization : SkipOptimization
deriving DecidableEq

/-- Failures of the searcher operations.  `assertMilestone` is the
failure of `assert milestone is not None`; `invalidatedSearcher` is the
failure of any attribute access through `state_transformer` after the
searcher was invalidated; `stateConflict` is the spec's
`StateConflictError`, the failed assertion that a pending registration
must not target an already observed (trial, resource) pair. -/
inductive SearcherError where
  | assertMilestone
  | invalidatedSearcher
  | stateConflict (t : String) (r : Nat)
deriving DecidableEq

/-- `register_pending` of `GPMultiFidelitySearcher`: requires an explicit
milestone; a pair already pending is left alone; a pair already observed
is a `StateConflictError`; otherwise the pending evaluation is appended. -/
def Searcher.register_pending (s : Searcher) (t : String) (cfg : Option Config)
    (milestone : Option Nat) : Except SearcherError Searcher :=
  match milestone with
  | none => .error .assertMilestone
  | some r =>
    match s.state_transformer with
    | none => .error .invalidatedSearcher
    | some ts =>
      if is_pending ts.state t r then .ok s
      else if is_labeled ts.state t r then .error (.stateConflict t r)
      else
        let ts2 := { ts with state := append_trial ts.state t cfg r }
        .ok { s with state_transformer := some ts2 }

/-- `evaluation_failed` of `GPMultiFidelitySearcher`: remove all pending
evaluations of the trial, then mark the trial failed. -/
def Searcher.evaluation_failed (s : Searcher) (t : String) :
    Except SearcherError Searcher :=
  match s.state_transformer with
  | none => .error .invalidatedSearcher
  | some ts =>
      let ts2 := { ts with state := mark_trial_failed (cleanup_pending ts.state t) t }
      .ok { s with state_transformer := some ts2 }

/-- `clone_from_state` of `GPMultiFidelitySearcher`: build a new searcher
whose ledger state and skip-optimization cache come from the snapshot,
then invalidate the original (`self.state_transformer = None`).  The pair
returned is (new searcher, invalidated original). -/
def Searcher.clone_from_state (s : Searcher) (snap : SerializedState) :
    Except SearcherError (Searcher × Searcher) :=
  match s.state_transformer with
  | none => .error .invalidatedSearcher
  | some _ =>
      .ok (⟨some ⟨snap.state, snap.skip_optimization⟩⟩,
        { s with state_transformer := none })

/-- A small concrete GP backend used by the witnesses. -/
def demoGP : GPBackend where
  predictOne := fun r _ x => (x.headD r, r)
  sampleMarginalsOne := fun r _ x ns _ => List.replicate ns (x.headD r)
  sampleJoint := fun _ r _ feats ns => feats.map (fun x => List.replicate ns (x.headD r))
  backwardGradient := fun r _ x _ _ _ => x.map (fun _ => r)
  nll := fun r _ => r
  priorMean := fun r x => x.headD r

/-- A small concrete posterior state used by the witnesses: training data
at resources 1 and 2, supported resource levels 1, 2 and 3. -/
def demoState : IndepState where
  trainRows := [([10, 1], 5), ([20, 2], 6), ([30, 1], 7)]
  meanKeys := [1, 2, 3]

/-- A small concrete ledger used by the searcher witnesses. -/
def demoLedger : TuningJobState where
  configs := [("t1", [("lr", 1)])]
  observations := [⟨"t1", 1, 5⟩]
  pending := [⟨"t1", 3⟩, ⟨"t2", 3⟩]
  failed := []

/-- A live searcher over `demoLedger`. -/
def demoSearcher : Searcher :=
  ⟨some ⟨demoLedger, ⟨[("noise", 1)]⟩⟩⟩

theorem length_setPairs {α : Type} (pairs : List (Nat × α)) (acc : List α) :
    (setPairs acc pairs).length = acc.length := by
  induction pairs generalizing acc with
  | nil => rfl
  | cons p t ih => simpa [setPairs, List.foldl_cons] using ih (acc.set p.1 p.2)

theorem setPairs_cons {α : Type} (acc : List α) (p : Nat × α)
    (t : List (Nat × α)) : setPairs acc (p :: t) = setPairs (acc.set p.1 p.2) t := rfl

theorem setPairs_append {α : Type} (acc : List α) (p q : List (Nat × α)) :
    setPairs acc (p ++ q) = setPairs (setPairs acc p) q := by
  simp [setPairs, List.foldl_append]

theorem setPairs_getElem?_not_mem {α : Type} {pairs : List (Nat × α)}
    {k : Nat} (h : k ∉ pairs.map Prod.fst) (acc : List α) :
    (setPairs acc pairs)[k]? = acc[k]? := by
  induction pairs generalizing acc with
  | nil => rfl
  | cons p t ih =>
    have h1 : p.1 ≠ k := fun he => h (by simp [he])
    have h2 : k ∉ t.map Prod.fst := fun hm => h (by simp [hm])
    rw [setPairs_cons, ih h2]
    exact List.getElem?_set_ne h1

theorem setPairs_getElem?_mem {α : Type} {pairs : List (Nat × α)}
    {k : Nat} {v : α} (hnd : (pairs.map Prod.fst).Nodup)
    (hmem : (k, v) ∈ pairs) (acc : List α) (hk : k < acc.length) :
    (setPairs acc pairs)[k]? = some v := by
  induction pairs generalizing acc with
  | nil => exact absurd hmem (List.not_mem_nil _)
  | cons p t ih =>
    rw [setPairs_cons]
    rcases List.mem_cons.mp hmem with heq | hmemt
    · have hknott : k ∉ t.map Prod.fst := by
        simp only [List.map_cons, List.nodup_cons] at hnd
        rw [← heq] at hnd
        exact hnd.1
      rw [setPairs_getElem?_not_mem hknott]
      rw [← heq]
      exact List.getElem?_set_self (by simpa using hk)
    · exact ih (by simp only [List.map_cons, List.nodup_cons] at hnd; exact hnd.2)
        hmemt (acc.set p.1 p.2) (by simpa using hk)

theorem scatterList_eq_setPairs {α : Type} (n : Nat) (d : α)
    (updates : List (List Nat × List α)) :
    scatterList n d updates =
      setPairs (List.replicate n d) ((updates.map (fun u => u.1.zip u.2)).flatten) := by
  show List.foldl _ _ _ = _
  generalize List.replicate n d = acc
  induction updates generalizing acc with
  | nil => rfl
  | cons u t ih => simp [List.foldl_cons, ih, setPairs_append]

theorem argsortInsert_perm (keys : List ℚ) (i : Nat) (l : List Nat) :
    (argsortInsert keys i l).Perm (i :: l) := by
  induction l with
  | nil => exact List.Perm.refl _
  | cons j t ih =>
    rw [argsortInsert]
    by_cases h : keys.getD i 0 ≤ keys.getD j 0
    · rw [if_pos h]
    · rw [if_neg h]
      exact ((ih.cons j).trans (List.Perm.swap i j t))

theorem argsort_perm (keys : List ℚ) :
    (argsort keys).Perm (List.range keys.length) := by
  show (List.foldr (argsortInsert keys) [] (List.range keys.length)).Perm _
  generalize List.range keys.length = l
  induction l with
  | nil => exact List.Perm.refl _
  | cons i t ih =>
    exact (argsortInsert_perm keys i _).trans (ih.cons i)

theorem groupRuns_flatten {α : Type} (l : List (ℚ × α)) :
    (groupRuns l).flatten = l := by
  induction l with
  | nil => rfl
  | cons p t ih =>
    rw [groupRuns]
    rcases hgr : groupRuns t with _ | ⟨g, gs⟩
    · simp only [hgr, List.flatten_nil] at ih
      simp [← ih]
    · rcases hg : g with _ | ⟨q, g2⟩
      · rw [hgr, hg] at ih
        simp only [List.flatten_cons, List.nil_append] at ih
        simp [← ih]
      · rw [hgr, hg] at ih
        by_cases hpq : p.1 = q.1
        · simp only [if_pos hpq]
          simpa using ih
        · simp only [if_neg hpq]
          simpa using ih

theorem groupRuns_mem_cases {α : Type} {l : List (ℚ × α)}
    {g : List (ℚ × α)} (hg : g ∈ groupRuns l) :
    g ≠ [] ∧ ∀ p ∈ g, ∀ q ∈ g, p.1 = q.1 := by
  induction l generalizing g with
  | nil => exact absurd hg (List.not_mem_nil _)
  | cons p t ih =>
    rw [groupRuns] at hg
    rcases hgr : groupRuns t with _ | ⟨g0, gs⟩
    · rw [hgr] at hg
      simp only [List.mem_singleton] at hg
      subst hg
      refine ⟨by simp, ?_⟩
      intro a ha b hb
      simp only [List.mem_singleton] at ha hb
      rw [ha, hb]
    · rw [hgr] at hg
      rcases hg0 : g0 with _ | ⟨q, g2⟩
      · rw [hg0] at hg
        rcases List.mem_cons.mp hg with heq | hmem
        · subst heq
          refine ⟨by simp, ?_⟩
          intro a ha b hb
          simp only [List.mem_singleton] at ha hb
          rw [ha, hb]
        · exact ih (by rw [hgr]; exact List.mem_cons_of_mem _ hmem)
      · rw [hg0] at hg
        by_cases hpq : p.1 = q.1
        · simp only [if_pos hpq] at hg
          rcases List.mem_cons.mp hg with heq | hmem
          · subst heq
            have hq : (q :: g2) ∈ groupRuns t := by rw [hgr, hg0]; exact List.mem_cons_self _ _
            have hprev := ih hq
            refine ⟨by simp, ?_⟩
            intro a ha b hb
            have key : ∀ x ∈ p :: q :: g2, x.1 = p.1 := by
              intro x hx
              rcases List.mem_cons.mp hx with hxe | hxm
              · rw [hxe]
              · rw [hprev.2 x hxm q (List.mem_cons_self _ _), ← hpq]
            rw [key a ha, key b hb]
          · exact ih (by rw [hgr, hg0]; exact List.mem_cons_of_mem _ hmem)
        · simp only [if_neg hpq] at hg
          rcases List.mem_cons.mp hg with heq | hmem
          · subst heq
            refine ⟨by simp, ?_⟩
            intro a ha b hb
            simp only [List.mem_singleton] at ha hb
            rw [ha, hb]
          · exact ih (by rw [hgr, hg0]; exact hmem)

theorem groupRuns_headD_eq {α : Type} {l : List (ℚ × α)}
    {g : List (ℚ × α)} (hg : g ∈ groupRuns l) (d : ℚ × α) :
    ∀ p ∈ g, p.1 = (g.headD d).1 := by
  obtain ⟨hne, hall⟩ := groupRuns_mem_cases hg
  intro p hp
  rcases g with _ | ⟨q, t⟩
  · exact absurd rfl hne
  · exact hall p hp q (List.mem_cons_self _ _)

theorem flatnonzeroEq_mem {rs : List ℚ} {r : ℚ} {i : Nat} :
    i ∈ flatnonzeroEq rs r ↔ i < rs.length ∧ rs.getD i 0 = r := by
  simp [flatnonzeroEq, List.mem_filter]

theorem flatnonzeroEq_nodup (rs : List ℚ) (r : ℚ) :
    (flatnonzeroEq rs r).Nodup :=
  (List.nodup_range _).filter _

theorem lookupState_none_iff (s : IndepState) (r : ℚ) :
    lookupState s r = none ↔ r ∉ stateKeys s := by
  rw [lookupState, stateKeys]
  constructor
  · intro h hmem
    rcases List.mem_map.mp hmem with ⟨p, hp, hp1⟩
    rcases hfind : s.states.find? (fun p => decide (p.1 = r)) with _ | q
    · have := List.find?_eq_none.mp hfind p hp
      simp [hp1] at this
    · rw [hfind] at h
      simp at h
  · intro h
    rcases hfind : s.states.find? (fun p => decide (p.1 = r)) with _ | q
    · rw [hfind]; rfl
    · exfalso
      have hq := List.find?_some hfind
      have hqmem := List.mem_of_find?_eq_some hfind
      simp only [decide_eq_true_eq] at hq
      exact h (List.mem_map.mpr ⟨q, hqmem, hq⟩)

theorem lookupState_mem_keys {s : IndepState} {r : ℚ}
    (h : r ∈ stateKeys s) : ∃ trows, lookupState s r = some trows := by
  rcases hlk : lookupState s r with _ | trows
  · exact absurd h ((lookupState_none_iff s r).mp hlk)
  · exact ⟨trows, rfl⟩

theorem collectE_ok_of {ε α β : Type} (f : α → Except ε β) (g : α → β)
    (l : List α) (h : ∀ a ∈ l, f a = .ok (g a)) :
    collectE f l = .ok (l.map g) := by
  induction l with
  | nil => rfl
  | cons a t ih =>
    rw [collectE, h a (List.mem_cons_self _ _),
      ih (fun b hb => h b (List.mem_cons_of_mem _ hb))]
    rfl

theorem argsort_facts (keys : List ℚ) :
    (argsort keys).length = keys.length ∧ (argsort keys).Nodup ∧
      ∀ i, i ∈ argsort keys ↔ i < keys.length := by
  have hp := argsort_perm keys
  refine ⟨by simpa using hp.length_eq, hp.symm.nodup (List.nodup_range _), ?_⟩
  intro i
  rw [hp.mem_iff, List.mem_range]

theorem collectE_error_exists {ε α β : Type} (f : α → Except ε β)
    (l : List α) (hx : ∃ a ∈ l, ∃ e, f a = .error e) :
    ∃ e, collectE f l = .error e ∧ ∃ b ∈ l, f b = .error e := by
  induction l with
  | nil => rcases hx with ⟨a, ha, _⟩; exact absurd ha (List.not_mem_nil _)
  | cons a t ih =>
    rcases hfa : f a with e | b
    · exact ⟨e, by rw [collectE, hfa]; rfl, a, List.mem_cons_self _ _, hfa⟩
    · have hxt : ∃ c ∈ t, ∃ e, f c = .error e := by
        rcases hx with ⟨c, hc, e, hce⟩
        rcases List.mem_cons.mp hc with hca | hct
        · rw [hca, hfa] at hce; cases hce
        · exact ⟨c, hct, e, hce⟩
      rcases ih hxt with ⟨e, hcoll, c, hc, hce⟩
      refine ⟨e, ?_, c, List.mem_cons_of_mem _ hc, hce⟩
      rw [collectE, hfa, hcoll]
      rfl

theorem predict_rowwise (s : IndepState) (gp : GPBackend) (testRows : List ExtRow)
    (hcov : ∀ row ∈ testRows, dec_r row ∈ stateKeys s) :
    s.predict gp testRows = .ok (testRows.map (predRow s gp)) := by
  obtain ⟨hind_len, hind_nodup, hind_mem⟩ := argsort_facts (testRows.map dec_r)
  by_cases hone : (testRows.map dec_r).dedup.length = 1
  · -- single-resource branch
    obtain ⟨row0, t0, hrows⟩ : ∃ row0 t0, testRows = row0 :: t0 := by
      cases testRows with
      | nil => simp at hone
      | cons a t => exact ⟨a, t, rfl⟩
    have hrow0 : row0 ∈ testRows := by rw [hrows]; exact List.mem_cons_self _ _
    obtain ⟨d, hd⟩ := List.length_eq_one.mp hone
    have hall : ∀ row ∈ testRows, dec_r row = d := by
      intro row hrow
      have : dec_r row ∈ (testRows.map dec_r).dedup :=
        List.mem_dedup.mpr (List.mem_map_of_mem _ hrow)
      rw [hd] at this
      exact List.mem_singleton.mp this
    have hhead : (testRows.map dec_r).headD 0 = d := by
      rw [hrows, List.map_cons, List.headD_cons]
      exact hall row0 hrow0
    have hdk : d ∈ stateKeys s := by
      rw [← hall row0 hrow0]; exact hcov row0 hrow0
    obtain ⟨trows, hlk⟩ := lookupState_mem_keys hdk
    simp only [IndepState.predict, decode_extended_features]
    rw [if_pos hone, hhead, hlk]
    refine congrArg Except.ok ?_
    rw [List.map_map]
    refine List.map_congr_left ?_
    intro row hrow
    simp only [Function.comp_apply, predRow, hall row hrow, hlk, Option.getD_some]
  · -- mixed-resource branch
    have hcovp : ∀ p ∈ (argsort (testRows.map dec_r)).map (fun i =>
        ((testRows.map dec_r).getD i 0, (testRows.map dec_x).getD i [])),
        p.1 ∈ stateKeys s := by
      intro p hp
      rcases List.mem_map.mp hp with ⟨i, hi, hpi⟩
      have hilt : i < testRows.length := by
        simpa using (hind_mem i).mp hi
      have hget : (testRows.map dec_r).getD i 0 = dec_r (testRows.getD i []) := by
        rw [List.getD_eq_getElem _ _ (by simpa using hilt), List.getElem_map,
          List.getD_eq_getElem _ _ hilt]
      rw [← hpi]
      simp only [hget]
      refine hcov _ ?_
      rw [List.getD_eq_getElem _ _ hilt]
      exact List.getElem_mem _
    have hcoll : collectE (predictGroup s gp)
        (groupRuns ((argsort (testRows.map dec_r)).map (fun i =>
          ((testRows.map dec_r).getD i 0, (testRows.map dec_x).getD i [])))) =
        .ok ((groupRuns ((argsort (testRows.map dec_r)).map (fun i =>
          ((testRows.map dec_r).getD i 0, (testRows.map dec_x).getD i [])))).map
          (fun g => g.map (fun p =>
            gp.predictOne p.1 ((lookupState s p.1).getD []) p.2))) := by
      refine collectE_ok_of _ _ _ ?_
      intro g hg
      obtain ⟨hgne, hgeq⟩ := groupRuns_mem_cases hg
      obtain ⟨q0, gt, hgq⟩ : ∃ q0 gt, g = q0 :: gt := by
        cases g with
        | nil => exact absurd rfl hgne
        | cons a t => exact ⟨a, t, rfl⟩
      have hheadmem : g.headD ((0 : ℚ), ([] : Feature)) ∈ g := by
        rw [hgq]; exact List.mem_cons_self _ _
      have hheadcov : (g.headD ((0 : ℚ), ([] : Feature))).1 ∈ stateKeys s := by
        refine hcovp _ ?_
        rw [← groupRuns_flatten ((argsort (testRows.map dec_r)).map (fun i =>
          ((testRows.map dec_r).getD i 0, (testRows.map dec_x).getD i [])))]
        exact List.mem_flatten.mpr ⟨g, hg, hheadmem⟩
      obtain ⟨trows, hlk⟩ := lookupState_mem_keys hheadcov
      have hmapeq : g.map (fun p =>
          gp.predictOne (g.headD ((0 : ℚ), ([] : Feature))).1 trows p.2) =
          g.map (fun p => gp.predictOne p.1 ((lookupState s p.1).getD []) p.2) := by
        refine List.map_congr_left ?_
        intro p hp
        have hp1 : p.1 = (g.headD ((0 : ℚ), ([] : Feature))).1 :=
          groupRuns_headD_eq hg _ p hp
        rw [hp1, hlk, Option.getD_some]
      rw [predictGroup, hlk]
      exact congrArg Except.ok hmapeq
    simp only [IndepState.predict, decode_extended_features]
    rw [if_neg hone, hcoll]
    refine congrArg Except.ok ?_
    -- flatten of per-group maps is the map over the sorted pairs
    rw [← List.map_flatten, groupRuns_flatten]
    -- final scatter-back: elementwise argument
    have hspl : ((argsort (testRows.map dec_r)).map (fun i =>
        ((testRows.map dec_r).getD i 0, (testRows.map dec_x).getD i []))).length =
        testRows.length := by
      rw [List.length_map]
      simpa using hind_len
    refine List.ext_getElem ?_ ?_
    · rw [List.length_map, List.length_map, reverseIndex, length_setPairs,
        List.length_replicate]
    · intro k hk1 hk2
      have hkn : k < testRows.length := by simpa using hk2
      -- position of k in the argsort permutation
      have hkind : k ∈ argsort (testRows.map dec_r) := by
        rw [hind_mem k, List.length_map]
        exact hkn
      obtain ⟨j, hj, hjk⟩ := List.getElem_of_mem hkind
      have hjn : j < testRows.length := by
        have hj2 := hj
        rw [hind_len, List.length_map] at hj2
        exact hj2
      -- reverseIndex at k is j
      have hrev : (reverseIndex (argsort (testRows.map dec_r)) testRows.length)[k]? =
          some j := by
        rw [reverseIndex]
        refine setPairs_getElem?_mem ?_ ?_ _ (by simpa using hkn)
        · rw [List.map_fst_zip]
          · exact hind_nodup
          · simp [hind_len]
        · have hjlen : j < ((argsort (List.map dec_r testRows)).zip
              (List.range testRows.length)).length := by
            simp only [List.length_zip, List.length_range]
            rw [hind_len, List.length_map]
            exact lt_min hjn hjn
          refine List.mem_iff_getElem.mpr ⟨j, hjlen, ?_⟩
          rw [List.getElem_zip]
          simp [List.getElem_range, hjk]
      have hlenrev : k < (reverseIndex (argsort (testRows.map dec_r)) testRows.length).length := by
        rw [reverseIndex, length_setPairs, List.length_replicate]
        exact hkn
      have hrevk : (reverseIndex (argsort (testRows.map dec_r)) testRows.length)[k] = j := by
        have h2 := List.getElem?_eq_getElem hlenrev
        rw [hrev] at h2
        exact (Option.some.inj h2).symm
      rw [List.getElem_map, List.getElem_map, hrevk]
      -- value at position j of the mapped sorted pairs
      have hjlt : j < (((argsort (testRows.map dec_r)).map (fun i =>
          ((testRows.map dec_r).getD i 0, (testRows.map dec_x).getD i []))).map
          (fun p => gp.predictOne p.1 ((lookupState s p.1).getD []) p.2)).length := by
        rw [List.length_map, hspl]
        exact hjn
      rw [List.getD_eq_getElem _ _ hjlt, List.getElem_map, List.getElem_map, hjk]
      simp only [predRow]
      have hgr : (testRows.map dec_r).getD k 0 = dec_r (testRows[k]) := by
        rw [List.getD_eq_getElem _ _ (by simpa using hkn), List.getElem_map]
      have hgx : (testRows.map dec_x).getD k [] = dec_x (testRows[k]) := by
        rw [List.getD_eq_getElem _ _ (by simpa using hkn), List.getElem_map]
      rw [hgr, hgx]

/-- Claim C1: for every test batch whose rows carry two or more distinct
resource levels, each covered by a per-resource posterior, `predict`
returns results in exactly the caller's input row order: predicting any
permutation of the rows equals that permutation applied to the original
predictions, so the internal sort by resource is not observable. -/
theorem predict_permutation_invariant (s : IndepState) (gp : GPBackend)
    (testRows : List ExtRow) (perm : List Nat) (out : List (ℚ × ℚ))
    (hperm : perm.Perm (List.range testRows.length))
    (hdistinct : 2 ≤ ((decode_extended_features testRows).2).dedup.length)
    (hcov : ∀ row ∈ testRows, dec_r row ∈ stateKeys s)
    (hout : s.predict gp testRows = .ok out) :
    s.predict gp (perm.map (fun i => testRows.getD i [])) =
      .ok (perm.map (fun i => out.getD i (0, 0))) := by
  clear hdistinct
  have houteq : out = testRows.map (predRow s gp) :=
    Except.ok.inj (hout.symm.trans (predict_rowwise s gp testRows hcov))
  have hmem : ∀ i ∈ perm, i < testRows.length := fun i hi =>
    List.mem_range.mp (hperm.mem_iff.mp hi)
  have hcov2 : ∀ row ∈ perm.map (fun i => testRows.getD i []),
      dec_r row ∈ stateKeys s := by
    intro row hrow
    rcases List.mem_map.mp hrow with ⟨i, hi, hri⟩
    have hilt := hmem i hi
    rw [← hri, List.getD_eq_getElem _ _ hilt]
    exact hcov _ (List.getElem_mem _)
  rw [predict_rowwise s gp _ hcov2]
  refine congrArg Except.ok ?_
  rw [List.map_map]
  refine List.map_congr_left ?_
  intro i hi
  have hilt := hmem i hi
  simp only [Function.comp_apply]
  rw [houteq, List.getD_eq_getElem (testRows.map (predRow s gp)) (0, 0)
    (by simpa using hilt), List.getElem_map,
    List.getD_eq_getElem testRows [] hilt]

/-- Witness for C1: a three-row batch over resources 2, 1, 2 and the
permutation swapping the first two rows. -/
theorem predict_permutation_invariant_witness :
    demoState.predict demoGP (([1, 0, 2] : List Nat).map
      (fun i => ([[1, 2], [2, 1], [3, 2]] : List ExtRow).getD i [])) =
      .ok (([1, 0, 2] : List Nat).map
        (fun i => ([(1, 2), (2, 1), (3, 2)] : List (ℚ × ℚ)).getD i (0, 0))) :=
  predict_permutation_invariant demoState demoGP [[1, 2], [2, 1], [3, 2]]
    [1, 0, 2] [(1, 2), (2, 1), (3, 2)]
    (by decide) (by decide) (by decide) (by decide)

/-- Claim C3: for a posterior state whose training data is partitioned
across two or more resource levels, `neg_log_likelihood` equals the sum,
over the per-resource posteriors it holds, of each per-resource
posterior's own negative log-likelihood on its slice of the training
data. -/
theorem neg_log_likelihood_separable (s : IndepState) (gp : GPBackend)
    (htwo : 2 ≤ (stateKeys s).length) :
    neg_log_likelihood s gp =
      ((stateKeys s).map (fun r => gp.nll r (trainRowsAt s r))).sum := by
  clear htwo
  rw [neg_log_likelihood, stateKeys, List.map_map]
  refine congrArg List.sum ?_
  refine List.map_congr_left ?_
  intro p hp
  rcases List.mem_filterMap.mp hp with ⟨r0, _, hr0⟩
  have hr0x : (if (trainRowsAt s r0).isEmpty = true then none
      else some (r0, trainRowsAt s r0)) = some p := hr0
  by_cases hie : (trainRowsAt s r0).isEmpty = true
  · rw [if_pos hie] at hr0x
    cases hr0x
  · rw [if_neg hie] at hr0x
    have hps := Option.some.inj hr0x
    have hp1 : p.1 = r0 := by rw [← hps]
    have hp2 : p.2 = trainRowsAt s r0 := by rw [← hps]
    simp only [Function.comp_apply, hp1, hp2]

/-- Witness for C3 on the demo posterior state, which holds posteriors at
resources 1 and 2. -/
theorem neg_log_likelihood_separable_witness :
    neg_log_likelihood demoState demoGP =
      ((stateKeys demoState).map (fun r => demoGP.nll r (trainRowsAt demoState r))).sum :=
  neg_log_likelihood_separable demoState demoGP (by decide)

/-- Claim C8: for a single extended input row whose resource has a
trained posterior, `backward_gradient` returns a vector of exactly the
input's extended shape, whose leading coordinates are that resource's GP
backward gradient on the configuration coordinates and whose last
(resource) coordinate is zero. -/
theorem backward_gradient_shape (s : IndepState) (gp : GPBackend)
    (input : ExtRow) (headGradients : HeadGradients) (meanData stdData : ℚ)
    (trows : List (Feature × ℚ))
    (hne : input ≠ [])
    (hlk : lookupState s (dec_r input) = some trows)
    (hlen : (gp.backwardGradient (dec_r input) trows (dec_x input)
      headGradients meanData stdData).length = (dec_x input).length) :
    ∃ grad, s.backward_gradient gp input headGradients meanData stdData = .ok grad ∧
      grad.length = input.length ∧
      grad.getLastD 0 = 0 ∧
      grad.dropLast = gp.backwardGradient (dec_r input) trows (dec_x input)
        headGradients meanData stdData := by
  refine ⟨gp.backwardGradient (dec_r input) trows (dec_x input)
      headGradients meanData stdData ++ [0], ?_, ?_, ?_, ?_⟩
  · rw [IndepState.backward_gradient, hlk]
  · have h1 : 1 ≤ input.length := by
      cases input with
      | nil => exact absurd rfl hne
      | cons a t => simp
    rw [List.length_append, hlen]
    simp only [dec_x, List.length_dropLast, List.length_cons, List.length_nil]
    omega
  · rw [List.getLastD_concat]
  · rw [List.dropLast_concat]

/-- Witness for C8 at a concrete two-coordinate input at resource 1. -/
theorem backward_gradient_shape_witness :
    ∃ grad, demoState.backward_gradient demoGP [4, 1] [] 0 1 = .ok grad ∧
      grad.length = ([4, 1] : ExtRow).length ∧
      grad.getLastD 0 = 0 ∧
      grad.dropLast = demoGP.backwardGradient (dec_r [4, 1]) [([10], 5), ([30], 7)]
        (dec_x [4, 1]) [] 0 1 :=
  backward_gradient_shape demoState demoGP [4, 1] [] 0 1 [([10], 5), ([30], 7)]
    (by decide) (by decide) (by decide)

/-- Claim C10: `register_pending` without an explicit milestone always
fails the `assert milestone is not None` check, for any searcher (valid
or invalidated), trial and configuration, before any state is touched —
so the searcher state is left unchanged. -/
theorem register_pending_requires_milestone (s : Searcher) (t : String)
    (cfg : Option Config) :
    s.register_pending t cfg none = .error .assertMilestone := rfl

/-- Claim C4: a test batch containing a row whose resource level has no
trained per-resource posterior makes both `predict` and
`sample_marginals` fail with an unsupported-resource error naming an
uncovered resource — neither ever silently returns a defaulted or
extrapolated value for such a row. -/
theorem unsupported_resource_fails (s : IndepState) (gp : GPBackend)
    (testRows : List ExtRow) (row0 : ExtRow) (numSamples seed : Nat)
    (hmem : row0 ∈ testRows) (hunc : dec_r row0 ∉ stateKeys s) :
    (∃ r, r ∉ stateKeys s ∧
      s.predict gp testRows = .error (.unsupportedResource r)) ∧
    (∃ r, r ∉ stateKeys s ∧
      s.sample_marginals gp testRows numSamples seed =
        .error (.unsupportedResource r)) := by
  obtain ⟨hind_len, hind_nodup, hind_mem⟩ := argsort_facts (testRows.map dec_r)
  constructor
  · -- predict fails
    by_cases hone : (testRows.map dec_r).dedup.length = 1
    · -- single-resource branch: the shared resource is uncovered
      obtain ⟨row1, t1, hrows⟩ : ∃ row1 t1, testRows = row1 :: t1 := by
        cases testRows with
        | nil => exact absurd hmem (List.not_mem_nil _)
        | cons a t => exact ⟨a, t, rfl⟩
      have hrow1 : row1 ∈ testRows := by rw [hrows]; exact List.mem_cons_self _ _
      obtain ⟨d, hd⟩ := List.length_eq_one.mp hone
      have hall : ∀ row ∈ testRows, dec_r row = d := by
        intro row hrow
        have hmd : dec_r row ∈ (testRows.map dec_r).dedup :=
          List.mem_dedup.mpr (List.mem_map_of_mem _ hrow)
        rw [hd] at hmd
        exact List.mem_singleton.mp hmd
      have hhead : (testRows.map dec_r).headD 0 = d := by
        rw [hrows, List.map_cons, List.headD_cons]
        exact hall row1 hrow1
      have hdunc : d ∉ stateKeys s := by
        rw [← hall row0 hmem]; exact hunc
      have hlkn : lookupState s d = none := (lookupState_none_iff s d).mpr hdunc
      refine ⟨d, hdunc, ?_⟩
      simp only [IndepState.predict, decode_extended_features]
      rw [if_pos hone, hhead, hlkn]
    · -- mixed-resource branch: the group holding row0 errors
      obtain ⟨k, hk, hkrow⟩ := List.mem_iff_getElem.mp hmem
      have hkin : k ∈ argsort (testRows.map dec_r) :=
        (hind_mem k).mpr (by simpa using hk)
      have hpeqr : (testRows.map dec_r).getD k 0 = dec_r row0 := by
        rw [List.getD_eq_getElem _ _ (by simpa using hk), List.getElem_map, hkrow]
      have hpair : ((testRows.map dec_r).getD k 0, (testRows.map dec_x).getD k []) ∈
          (argsort (testRows.map dec_r)).map (fun i =>
            ((testRows.map dec_r).getD i 0, (testRows.map dec_x).getD i [])) :=
        List.mem_map_of_mem _ hkin
      obtain ⟨g, hgmem, hging⟩ := List.mem_flatten.mp (by
        rw [groupRuns_flatten ((argsort (testRows.map dec_r)).map (fun i =>
          ((testRows.map dec_r).getD i 0, (testRows.map dec_x).getD i [])))]
        exact hpair)
      have hghead : ((testRows.map dec_r).getD k 0, (testRows.map dec_x).getD k []).1 =
          (g.headD ((0 : ℚ), ([] : Feature))).1 :=
        groupRuns_headD_eq hgmem _ _ hging
      have hlkg : lookupState s (g.headD ((0 : ℚ), ([] : Feature))).1 = none := by
        refine (lookupState_none_iff _ _).mpr ?_
        rw [← hghead]
        show (testRows.map dec_r).getD k 0 ∉ stateKeys s
        rw [hpeqr]
        exact hunc
      have hx : ∃ g2 ∈ groupRuns ((argsort (testRows.map dec_r)).map (fun i =>
          ((testRows.map dec_r).getD i 0, (testRows.map dec_x).getD i []))),
          ∃ e, predictGroup s gp g2 = .error e := by
        refine ⟨g, hgmem,
          PSError.unsupportedResource (g.headD ((0 : ℚ), ([] : Feature))).1, ?_⟩
        rw [predictGroup, hlkg]
      rcases collectE_error_exists _ _ hx with ⟨e, hcoll, b, hb, hbe⟩
      have hbe2 : (match lookupState s (b.headD ((0 : ℚ), ([] : Feature))).1 with
          | some trows => Except.ok (b.map (fun (p : ℚ × Feature) =>
              gp.predictOne (b.headD ((0 : ℚ), ([] : Feature))).1 trows p.2))
          | none => Except.error (PSError.unsupportedResource
              (b.headD ((0 : ℚ), ([] : Feature))).1)) = .error e := hbe
      rcases hlkb : lookupState s (b.headD ((0 : ℚ), ([] : Feature))).1 with _ | trows
      · rw [hlkb] at hbe2
        have hbe3 : (Except.error (PSError.unsupportedResource
            (b.headD ((0 : ℚ), ([] : Feature))).1) :
            Except PSError (List (ℚ × ℚ))) = .error e := hbe2
        have he := Except.error.inj hbe3
        refine ⟨(b.headD ((0 : ℚ), ([] : Feature))).1,
          (lookupState_none_iff _ _).mp hlkb, ?_⟩
        simp only [IndepState.predict, decode_extended_features]
        rw [if_neg hone, hcoll]
        exact congrArg Except.error he.symm
      · rw [hlkb] at hbe2
        have hbe3 : (Except.ok (b.map (fun (p : ℚ × Feature) =>
            gp.predictOne (b.headD ((0 : ℚ), ([] : Feature))).1 trows p.2)) :
            Except PSError (List (ℚ × ℚ))) = .error e := hbe2
        exact absurd hbe3 (by simp)
  · -- sample_marginals fails via the _split_features assertion
    have hd : dec_r row0 ∈ (testRows.map dec_r).dedup :=
      List.mem_dedup.mpr (List.mem_map_of_mem _ hmem)
    have hx : ∃ a ∈ (testRows.map dec_r).dedup, ∃ e,
        splitOne s true (testRows.map dec_x) (testRows.map dec_r) a = .error e := by
      refine ⟨dec_r row0, hd, .unsupportedResource (dec_r row0), ?_⟩
      rw [splitOne, if_pos ⟨rfl, hunc⟩]
    rcases collectE_error_exists _ _ hx with ⟨e, hcoll, b, hb, hbe⟩
    have hbe2 : (if (true : Bool) ∧ b ∉ stateKeys s then
        Except.error (PSError.unsupportedResource b)
        else Except.ok (b, (flatnonzeroEq (testRows.map dec_r) b).map
          (fun i => (testRows.map dec_x).getD i []),
          flatnonzeroEq (testRows.map dec_r) b)) = .error e := hbe
    by_cases hbcov : b ∉ stateKeys s
    · rw [if_pos ⟨rfl, hbcov⟩] at hbe2
      have he := Except.error.inj hbe2
      refine ⟨b, hbcov, ?_⟩
      have hsplit : s.splitFeatures testRows true = .error e := hcoll
      simp only [IndepState.sample_marginals]
      rw [hsplit]
      exact congrArg Except.error he.symm
    · rw [if_neg (by intro hand; exact hbcov hand.2)] at hbe2
      exact absurd hbe2 (by simp)

/-- Witness for C4: a two-row batch where the second row's resource 9 is
not covered by any per-resource posterior. -/
theorem unsupported_resource_fails_witness :
    (∃ r, r ∉ stateKeys demoState ∧
      demoState.predict demoGP [[1, 2], [5, 9]] = .error (.unsupportedResource r)) ∧
    (∃ r, r ∉ stateKeys demoState ∧
      demoState.sample_marginals demoGP [[1, 2], [5, 9]] 2 0 =
        .error (.unsupportedResource r)) :=
  unsupported_resource_fails demoState demoGP [[1, 2], [5, 9]] [5, 9] 2 0
    (by decide) (by decide)

theorem length_scatterList {α : Type} (n : Nat) (d : α)
    (updates : List (List Nat × List α)) :
    (scatterList n d updates).length = n := by
  rw [scatterList_eq_setPairs, length_setPairs, List.length_replicate]

theorem scatterList_partition_getElem {α : Type} (rs : List ℚ) (d : α)
    (vals : ℚ → List α)
    (hlen : ∀ r ∈ rs.dedup, (vals r).length = (flatnonzeroEq rs r).length)
    (k : Nat) (hk : k < rs.length) :
    (scatterList rs.length d
        (rs.dedup.map (fun r => (flatnonzeroEq rs r, vals r))))[k]? =
      (vals (rs.getD k 0))[(flatnonzeroEq rs (rs.getD k 0)).indexOf k]? := by
  rw [scatterList_eq_setPairs, List.map_map]
  have hfun : ((fun (u : List Nat × List α) => u.1.zip u.2) ∘
      (fun r => (flatnonzeroEq rs r, vals r))) =
      (fun r => (flatnonzeroEq rs r).zip (vals r)) := rfl
  rw [hfun]
  have hnodups : ((rs.dedup.map
      (fun r => (flatnonzeroEq rs r).zip (vals r))).flatten.map Prod.fst).Nodup := by
    rw [List.map_flatten, List.map_map]
    have heq : rs.dedup.map (List.map Prod.fst ∘
        (fun r => (flatnonzeroEq rs r).zip (vals r))) =
        rs.dedup.map (fun r => flatnonzeroEq rs r) := by
      refine List.map_congr_left ?_
      intro r hr
      simp only [Function.comp_apply]
      exact List.map_fst_zip _ _ (le_of_eq (hlen r hr).symm)
    rw [heq, List.nodup_flatten]
    constructor
    · intro l hl
      rcases List.mem_map.mp hl with ⟨r, _, hrl⟩
      rw [← hrl]
      exact flatnonzeroEq_nodup rs r
    · refine List.Pairwise.map _ ?_ (List.nodup_dedup rs)
      intro r1 r2 hne i hi1 hi2
      have h1 := (flatnonzeroEq_mem.mp hi1).2
      have h2 := (flatnonzeroEq_mem.mp hi2).2
      exact hne (h1.symm.trans h2)
  have hr0mem : rs.getD k 0 ∈ rs.dedup := by
    rw [List.mem_dedup, List.getD_eq_getElem _ _ hk]
    exact List.getElem_mem _
  have hkidx : k ∈ flatnonzeroEq rs (rs.getD k 0) :=
    flatnonzeroEq_mem.mpr ⟨hk, rfl⟩
  have hm : (flatnonzeroEq rs (rs.getD k 0)).indexOf k <
      (flatnonzeroEq rs (rs.getD k 0)).length :=
    List.indexOf_lt_length.mpr hkidx
  have hmv : (flatnonzeroEq rs (rs.getD k 0)).indexOf k <
      (vals (rs.getD k 0)).length := by
    rw [hlen _ hr0mem]
    exact hm
  have hpairmem : (k, (vals (rs.getD k 0)).get
      ⟨(flatnonzeroEq rs (rs.getD k 0)).indexOf k, hmv⟩) ∈
      (rs.dedup.map (fun r => (flatnonzeroEq rs r).zip (vals r))).flatten := by
    refine List.mem_flatten.mpr
      ⟨(flatnonzeroEq rs (rs.getD k 0)).zip (vals (rs.getD k 0)),
        List.mem_map_of_mem _ hr0mem, ?_⟩
    have hzlen : (flatnonzeroEq rs (rs.getD k 0)).indexOf k <
        ((flatnonzeroEq rs (rs.getD k 0)).zip (vals (rs.getD k 0))).length := by
      rw [List.length_zip]
      exact lt_min hm hmv
    refine List.mem_iff_getElem.mpr ⟨_, hzlen, ?_⟩
    rw [List.getElem_zip]
    refine Prod.ext ?_ rfl
    exact List.getElem_indexOf hm
  rw [setPairs_getElem?_mem hnodups hpairmem _
    (by rw [List.length_replicate]; exact hk)]
  rw [List.getElem?_eq_getElem hmv]
  rfl

theorem splitFeatures_ok (s : IndepState) (testRows : List ExtRow) (check : Bool)
    (h : ∀ r ∈ (testRows.map dec_r).dedup, check = true → r ∈ stateKeys s) :
    s.splitFeatures testRows check =
      .ok ((testRows.map dec_r).dedup.map (fun r =>
        (r, (flatnonzeroEq (testRows.map dec_r) r).map
          (fun i => (testRows.map dec_x).getD i []),
          flatnonzeroEq (testRows.map dec_r) r))) := by
  refine collectE_ok_of _ _ _ ?_
  intro r hr
  have hcond : ¬(check = true ∧ r ∉ stateKeys s) := by
    intro hand
    exact hand.2 (h r hr hand.1)
  rw [splitOne, if_neg hcond]
  rfl

/-- Claim C9: for a test batch in which every row's resource level has a
trained per-resource posterior, `sample_marginals` places each resource
group's samples back at the caller's original row positions: output row i
holds the marginal samples drawn for input row i's features through input
row i's resource posterior, for any interleaving of resources. -/
theorem sample_marginals_row_order (s : IndepState) (gp : GPBackend)
    (testRows : List ExtRow) (numSamples seed : Nat)
    (hcov : ∀ row ∈ testRows, dec_r row ∈ stateKeys s) :
    s.sample_marginals gp testRows numSamples seed =
      .ok (testRows.map (fun row => gp.sampleMarginalsOne (dec_r row)
        ((lookupState s (dec_r row)).getD []) (dec_x row) numSamples seed)) := by
  have hdedcov : ∀ r ∈ (testRows.map dec_r).dedup, r ∈ stateKeys s := by
    intro r hr
    rcases List.mem_map.mp (List.mem_dedup.mp hr) with ⟨row, hrow, hrr⟩
    rw [← hrr]
    exact hcov row hrow
  have hsplit := splitFeatures_ok s testRows true (fun r hr _ => hdedcov r hr)
  simp only [IndepState.sample_marginals]
  rw [hsplit]
  refine congrArg Except.ok ?_
  rw [List.map_map]
  have hfun : ((fun (u : ℚ × List Feature × List Nat) => (u.2.2, u.2.1.map (fun x =>
      gp.sampleMarginalsOne u.1 ((lookupState s u.1).getD []) x numSamples seed))) ∘
      (fun r => (r, (flatnonzeroEq (testRows.map dec_r) r).map
        (fun i => (testRows.map dec_x).getD i []),
        flatnonzeroEq (testRows.map dec_r) r))) =
      (fun r => (flatnonzeroEq (testRows.map dec_r) r,
        ((flatnonzeroEq (testRows.map dec_r) r).map
          (fun i => (testRows.map dec_x).getD i [])).map (fun x =>
            gp.sampleMarginalsOne r ((lookupState s r).getD []) x numSamples seed))) :=
    rfl
  rw [hfun]
  refine List.ext_getElem ?_ ?_
  · rw [length_scatterList, List.length_map]
  · intro k hk1 hk2
    have hkn : k < testRows.length := by simpa using hk2
    have hq := scatterList_partition_getElem (testRows.map dec_r)
      (List.replicate numSamples 0)
      (fun r => ((flatnonzeroEq (testRows.map dec_r) r).map
        (fun i => (testRows.map dec_x).getD i [])).map (fun x =>
          gp.sampleMarginalsOne r ((lookupState s r).getD []) x numSamples seed))
      (by intro r hr; rw [List.length_map, List.length_map])
      k (by simpa using hkn)
    simp only [List.length_map] at hq
    -- identify the target row's resource and its rank in its group
    have hr0 : (testRows.map dec_r).getD k 0 = dec_r (testRows[k]) := by
      rw [List.getD_eq_getElem _ _ (by simpa using hkn), List.getElem_map]
    have hkidx : k ∈ flatnonzeroEq (testRows.map dec_r)
        ((testRows.map dec_r).getD k 0) :=
      flatnonzeroEq_mem.mpr ⟨by simpa using hkn, rfl⟩
    have hm : (flatnonzeroEq (testRows.map dec_r)
        ((testRows.map dec_r).getD k 0)).indexOf k <
        (flatnonzeroEq (testRows.map dec_r)
          ((testRows.map dec_r).getD k 0)).length :=
      List.indexOf_lt_length.mpr hkidx
    have hscatlen : k < (scatterList testRows.length
        (List.replicate numSamples 0)
        ((testRows.map dec_r).dedup.map (fun r =>
          (flatnonzeroEq (testRows.map dec_r) r,
            ((flatnonzeroEq (testRows.map dec_r) r).map
              (fun i => (testRows.map dec_x).getD i [])).map (fun x =>
                gp.sampleMarginalsOne r ((lookupState s r).getD []) x
                  numSamples seed))))).length := by
      rw [length_scatterList]
      exact hkn
    have hsome := List.getElem?_eq_getElem hscatlen
    rw [hq] at hsome
    have hmlt : (flatnonzeroEq (testRows.map dec_r)
        ((testRows.map dec_r).getD k 0)).indexOf k <
        (((flatnonzeroEq (testRows.map dec_r)
          ((testRows.map dec_r).getD k 0)).map
            (fun i => (testRows.map dec_x).getD i [])).map (fun x =>
              gp.sampleMarginalsOne ((testRows.map dec_r).getD k 0)
                ((lookupState s ((testRows.map dec_r).getD k 0)).getD [])
                x numSamples seed)).length := by
      rw [List.length_map, List.length_map]
      exact hm
    rw [List.getElem?_eq_getElem hmlt] at hsome
    have hval := Option.some.inj hsome.symm
    rw [List.getElem_map, List.getElem_map] at hval
    rw [List.getElem_indexOf hm] at hval
    -- conclude
    rw [hval, List.getElem_map]
    have hx0 : (testRows.map dec_x).getD k [] = dec_x (testRows[k]) := by
      rw [List.getD_eq_getElem _ _ (by simpa using hkn), List.getElem_map]
    rw [hr0, hx0]

/-- Witness for C9 on a three-row batch interleaving resources 2, 1, 2. -/
theorem sample_marginals_row_order_witness :
    demoState.sample_marginals demoGP [[1, 2], [2, 1], [3, 2]] 2 7 =
      .ok (([[1, 2], [2, 1], [3, 2]] : List ExtRow).map (fun row =>
        demoGP.sampleMarginalsOne (dec_r row)
          ((lookupState demoState (dec_r row)).getD []) (dec_x row) 2 7)) :=
  sample_marginals_row_order demoState demoGP [[1, 2], [2, 1], [3, 2]] 2 7
    (by decide)

theorem collectE_map {ε α β γ : Type} (f : β → Except ε γ) (G : α → β)
    (l : List α) :
    collectE f (l.map G) = collectE (fun a => f (G a)) l := by
  induction l with
  | nil => rfl
  | cons a t ih => rw [List.map_cons, collectE, collectE, ih]

/-- Claim C2: in `sample_joint`, a row whose resource level has no
training data in the posterior state (but lies in the supported key set)
receives exactly the prior mean mu_r of its configuration features in
every sample column, with no random draw — for every seed the value is
the same `numSamples`-fold broadcast of the prior mean, so it is
identical across repeated calls, sample counts and random states — while
a row whose resource level does have training data is filled from that
resource's GP joint sample, at the row's rank within its resource
group. -/
theorem sample_joint_prior_mean_fallback (s : IndepState) (gp : GPBackend)
    (testRows : List ExtRow) (numSamples : Nat) (k : Nat)
    (hkeys : ∀ row ∈ testRows, dec_r row ∈ s.meanKeys)
    (hk : k < testRows.length)
    (hsize : ∀ seed r trows feats,
      (gp.sampleJoint seed r trows feats numSamples).length = feats.length) :
    ∀ seed : Nat, ∃ out,
      s.sample_joint gp testRows numSamples seed = .ok out ∧
      (dec_r (testRows.getD k []) ∉ stateKeys s →
        out.getD k [] = List.replicate numSamples
          (gp.priorMean (dec_r (testRows.getD k []))
            (dec_x (testRows.getD k [])))) ∧
      (∀ trows, lookupState s (dec_r (testRows.getD k [])) = some trows →
        out.getD k [] = (gp.sampleJoint seed (dec_r (testRows.getD k [])) trows
          ((flatnonzeroEq (testRows.map dec_r) (dec_r (testRows.getD k []))).map
            (fun i => (testRows.map dec_x).getD i []))
          numSamples).getD
          ((flatnonzeroEq (testRows.map dec_r)
            (dec_r (testRows.getD k []))).indexOf k) []) := by
  intro seed
  have hsplit := splitFeatures_ok s testRows false
    (fun r hr hfalse => absurd hfalse (by simp))
  have hcoll : collectE (fun r => sampleJointGroup s gp numSamples seed
      (r, (flatnonzeroEq (testRows.map dec_r) r).map
        (fun i => (testRows.map dec_x).getD i []),
        flatnonzeroEq (testRows.map dec_r) r)) ((testRows.map dec_r).dedup) =
      .ok ((testRows.map dec_r).dedup.map (fun r =>
        (flatnonzeroEq (testRows.map dec_r) r,
          jointGroupVals s gp numSamples seed (testRows.map dec_r)
            (testRows.map dec_x) r))) := by
    refine collectE_ok_of _ _ _ ?_
    intro r hr
    have hrk : r ∈ s.meanKeys := by
      rcases List.mem_map.mp (List.mem_dedup.mp hr) with ⟨row, hrow, hrr⟩
      rw [← hrr]
      exact hkeys row hrow
    show (match lookupState s r with
      | some trows => Except.ok (flatnonzeroEq (testRows.map dec_r) r,
          gp.sampleJoint seed r trows
            ((flatnonzeroEq (testRows.map dec_r) r).map
              (fun i => (testRows.map dec_x).getD i [])) numSamples)
      | none =>
          if r ∈ s.meanKeys then
            Except.ok (flatnonzeroEq (testRows.map dec_r) r,
              ((flatnonzeroEq (testRows.map dec_r) r).map
                (fun i => (testRows.map dec_x).getD i [])).map
                (fun x => List.replicate numSamples (gp.priorMean r x)))
          else Except.error (PSError.unsupportedResource r)) =
      Except.ok (flatnonzeroEq (testRows.map dec_r) r,
        jointGroupVals s gp numSamples seed (testRows.map dec_r)
          (testRows.map dec_x) r)
    rw [jointGroupVals]
    rcases hlk : lookupState s r with _ | trows
    · rw [if_pos hrk]
    · rfl
  -- the output array
  refine ⟨scatterList testRows.length (List.replicate numSamples 0)
    ((testRows.map dec_r).dedup.map (fun r =>
      (flatnonzeroEq (testRows.map dec_r) r,
        jointGroupVals s gp numSamples seed (testRows.map dec_r)
          (testRows.map dec_x) r))), ?_, ?_, ?_⟩
  · simp only [IndepState.sample_joint]
    rw [hsplit]
    have hfin : (match collectE (sampleJointGroup s gp numSamples seed)
        (((testRows.map dec_r).dedup).map (fun r =>
          (r, (flatnonzeroEq (testRows.map dec_r) r).map
            (fun i => (testRows.map dec_x).getD i []),
            flatnonzeroEq (testRows.map dec_r) r))) with
      | .error e => (.error e : Except PSError (List (List ℚ)))
      | .ok updates => .ok (scatterList testRows.length
          (List.replicate numSamples 0) updates)) =
        .ok (scatterList testRows.length (List.replicate numSamples 0)
          ((testRows.map dec_r).dedup.map (fun r =>
            (flatnonzeroEq (testRows.map dec_r) r,
              jointGroupVals s gp numSamples seed (testRows.map dec_r)
                (testRows.map dec_x) r)))) := by
      rw [collectE_map, hcoll]
    exact hfin
  -- shared positional computation for the two clauses
  all_goals
    have hq := scatterList_partition_getElem (testRows.map dec_r)
      (List.replicate numSamples 0)
      (jointGroupVals s gp numSamples seed (testRows.map dec_r)
        (testRows.map dec_x))
      (by
        intro r hr
        rw [jointGroupVals]
        rcases hlk : lookupState s r with _ | trows
        · simp only [List.length_map]
        · rw [hsize, List.length_map])
      k (by simpa using hk)
  all_goals simp only [List.length_map] at hq
  all_goals
    have hr0 : (testRows.map dec_r).getD k 0 = dec_r (testRows.getD k []) := by
      rw [List.getD_eq_getElem _ _ (by simpa using hk), List.getElem_map,
        List.getD_eq_getElem _ _ hk]
  all_goals
    have hkidx : k ∈ flatnonzeroEq (testRows.map dec_r)
        ((testRows.map dec_r).getD k 0) :=
      flatnonzeroEq_mem.mpr ⟨by simpa using hk, rfl⟩
  all_goals
    have hm : (flatnonzeroEq (testRows.map dec_r)
        ((testRows.map dec_r).getD k 0)).indexOf k <
        (flatnonzeroEq (testRows.map dec_r)
          ((testRows.map dec_r).getD k 0)).length :=
      List.indexOf_lt_length.mpr hkidx
  all_goals
    have hscatlen : k < (scatterList testRows.length
        (List.replicate numSamples 0)
        ((testRows.map dec_r).dedup.map (fun r =>
          (flatnonzeroEq (testRows.map dec_r) r,
            jointGroupVals s gp numSamples seed (testRows.map dec_r)
              (testRows.map dec_x) r)))).length := by
      rw [length_scatterList]
      exact hk
  all_goals
    have hsome := List.getElem?_eq_getElem hscatlen
  all_goals rw [hq] at hsome
  · -- uncovered clause: prior mean broadcast
    intro huncov
    have hlkn : lookupState s ((testRows.map dec_r).getD k 0) = none := by
      refine (lookupState_none_iff _ _).mpr ?_
      rw [hr0]
      exact huncov
    rw [jointGroupVals, hlkn] at hsome
    have hmm : (flatnonzeroEq (testRows.map dec_r)
        ((testRows.map dec_r).getD k 0)).indexOf k <
        (((flatnonzeroEq (testRows.map dec_r)
          ((testRows.map dec_r).getD k 0)).map
          (fun i => (testRows.map dec_x).getD i [])).map
          (fun x => List.replicate numSamples
            (gp.priorMean ((testRows.map dec_r).getD k 0) x))).length := by
      simp only [List.length_map]
      exact hm
    rw [List.getElem?_eq_getElem hmm] at hsome
    have hval := Option.some.inj hsome
    rw [List.getElem_map, List.getElem_map, List.getElem_indexOf hm] at hval
    have hx0 : (testRows.map dec_x).getD k [] = dec_x (testRows.getD k []) := by
      rw [List.getD_eq_getElem _ _ (by simpa using hk), List.getElem_map,
        List.getD_eq_getElem _ _ hk]
    rw [hx0, hr0] at hval
    rw [List.getD_eq_getElem _ _ hscatlen]
    exact hval.symm
  · -- covered clause: the joint sample at the row's rank in its group
    intro trows hlks
    have hlkr : lookupState s ((testRows.map dec_r).getD k 0) = some trows := by
      rw [hr0]
      exact hlks
    rw [jointGroupVals, hlkr] at hsome
    have hmm : (flatnonzeroEq (testRows.map dec_r)
        ((testRows.map dec_r).getD k 0)).indexOf k <
        (gp.sampleJoint seed ((testRows.map dec_r).getD k 0) trows
          ((flatnonzeroEq (testRows.map dec_r)
            ((testRows.map dec_r).getD k 0)).map
            (fun i => (testRows.map dec_x).getD i [])) numSamples).length := by
      rw [hsize, List.length_map]
      exact hm
    rw [List.getElem?_eq_getElem hmm] at hsome
    have hval := Option.some.inj hsome
    rw [List.getD_eq_getElem _ _ hscatlen]
    rw [← hr0]
    rw [List.getD_eq_getElem _ _ hmm]
    exact hval.symm

/-- Witness for C2 on a two-row batch: the first row's resource 3 is in
the supported key set but has no training data (prior-mean fallback), the
second row's resource 1 has training data (joint sample). -/
theorem sample_joint_prior_mean_fallback_witness :
    ∃ out, demoState.sample_joint demoGP [[9, 3], [2, 1]] 2 5 = .ok out ∧
      (dec_r (([[9, 3], [2, 1]] : List ExtRow).getD 0 []) ∉ stateKeys demoState →
        out.getD 0 [] = List.replicate 2
          (demoGP.priorMean (dec_r (([[9, 3], [2, 1]] : List ExtRow).getD 0 []))
            (dec_x (([[9, 3], [2, 1]] : List ExtRow).getD 0 [])))) ∧
      (∀ trows, lookupState demoState
          (dec_r (([[9, 3], [2, 1]] : List ExtRow).getD 0 [])) = some trows →
        out.getD 0 [] = (demoGP.sampleJoint 5
          (dec_r (([[9, 3], [2, 1]] : List ExtRow).getD 0 [])) trows
          ((flatnonzeroEq (([[9, 3], [2, 1]] : List ExtRow).map dec_r)
            (dec_r (([[9, 3], [2, 1]] : List ExtRow).getD 0 []))).map
            (fun i => (([[9, 3], [2, 1]] : List ExtRow).map dec_x).getD i []))
          2).getD
          ((flatnonzeroEq (([[9, 3], [2, 1]] : List ExtRow).map dec_r)
            (dec_r (([[9, 3], [2, 1]] : List ExtRow).getD 0 []))).indexOf 0) []) :=
  sample_joint_prior_mean_fallback demoState demoGP [[9, 3], [2, 1]] 2 0
    (by decide) (by decide)
    (by intro seed r trows feats; simp [demoGP]) 5

theorem is_pending_append_trial (st : TuningJobState) (t : String)
    (cfg : Option Config) (r : Nat) :
    is_pending (append_trial st t cfg r) t r := by
  simp [is_pending, append_trial]

/-- Claim C5: `register_pending` with an explicit resource is idempotent —
after a successful call, repeating the identical call returns the same
searcher unchanged — and, under the ledger invariant that a (trial,
resource) pair is never both pending and observed, a call for a pair
that already has an observation fails with `StateConflictError`; the
error is raised before `append_trial`, so no state is produced or
changed. -/
theorem register_pending_idempotent_conflict (s s1 : Searcher)
    (ts : TransformerState) (t : String) (cfg : Option Config) (r : Nat)
    (hvalid : s.state_transformer = some ts) :
    (s.register_pending t cfg (some r) = .ok s1 →
      s1.register_pending t cfg (some r) = .ok s1) ∧
    (¬ is_pending ts.state t r → is_labeled ts.state t r →
      s.register_pending t cfg (some r) = .error (.stateConflict t r)) := by
  constructor
  · intro hok
    simp only [Searcher.register_pending, hvalid] at hok
    by_cases hp : is_pending ts.state t r
    · rw [if_pos hp] at hok
      obtain rfl : s = s1 := Except.ok.inj hok
      simp only [Searcher.register_pending, hvalid]
      rw [if_pos hp]
    · rw [if_neg hp] at hok
      by_cases hl : is_labeled ts.state t r
      · rw [if_pos hl] at hok
        cases hok
      · rw [if_neg hl] at hok
        have hs1 := Except.ok.inj hok
        rw [← hs1]
        simp only [Searcher.register_pending]
        rw [if_pos (is_pending_append_trial ts.state t cfg r)]
  · intro hnp hl
    simp only [Searcher.register_pending, hvalid]
    rw [if_neg hnp, if_pos hl]

/-- Witness for C5 at the demo searcher: trial t1 already has an
observation at resource 1 and is pending at resource 3. -/
theorem register_pending_idempotent_conflict_witness :
    (demoSearcher.register_pending "t1" none (some 1) = .ok demoSearcher →
      demoSearcher.register_pending "t1" none (some 1) = .ok demoSearcher) ∧
    (¬ is_pending demoLedger "t1" 1 → is_labeled demoLedger "t1" 1 →
      demoSearcher.register_pending "t1" none (some 1) =
        .error (.stateConflict "t1" 1)) :=
  register_pending_idempotent_conflict demoSearcher demoSearcher
    ⟨demoLedger, ⟨[("noise", 1)]⟩⟩ "t1" none 1 rfl

/-- Claim C6: `evaluation_failed` removes exactly the trial's pending
evaluations (a pending entry survives iff it belonged to another trial),
marks the trial failed — making it ineligible for future suggestion —
and leaves the recorded observations and stored configurations of the
ledger unchanged. -/
theorem evaluation_failed_spec (s : Searcher) (ts : TransformerState)
    (t : String) (hvalid : s.state_transformer = some ts) :
    ∃ ts2, s.evaluation_failed t = .ok { s with state_transformer := some ts2 } ∧
      (∀ p : PendingEval, p ∈ ts2.state.pending ↔
        p ∈ ts.state.pending ∧ p.trial_id ≠ t) ∧
      t ∈ ts2.state.failed ∧
      ¬ eligible_for_suggestion ts2.state t ∧
      ts2.state.observations = ts.state.observations ∧
      ts2.state.configs = ts.state.configs ∧
      ts2.skip_optimization = ts.skip_optimization := by
  refine ⟨{ ts with state := mark_trial_failed (cleanup_pending ts.state t) t },
    ?_, ?_, ?_, ?_, rfl, rfl, rfl⟩
  · simp only [Searcher.evaluation_failed, hvalid]
  · intro p
    simp [mark_trial_failed, cleanup_pending, filter_pending_evaluations,
      List.mem_filter]
  · simp [mark_trial_failed, cleanup_pending, filter_pending_evaluations]
  · simp [eligible_for_suggestion, mark_trial_failed, cleanup_pending,
      filter_pending_evaluations]

/-- Witness for C6 at the demo searcher and trial t1, which has one
observation and one pending entry; another trial t2 is pending too. -/
theorem evaluation_failed_spec_witness :
    ∃ ts2, demoSearcher.evaluation_failed "t1" =
        .ok { demoSearcher with state_transformer := some ts2 } ∧
      (∀ p : PendingEval, p ∈ ts2.state.pending ↔
        p ∈ demoLedger.pending ∧ p.trial_id ≠ "t1") ∧
      "t1" ∈ ts2.state.failed ∧
      ¬ eligible_for_suggestion ts2.state "t1" ∧
      ts2.state.observations = demoLedger.observations ∧
      ts2.state.configs = demoLedger.configs ∧
      ts2.skip_optimization = ⟨[("noise", 1)]⟩ :=
  evaluation_failed_spec demoSearcher ⟨demoLedger, ⟨[("noise", 1)]⟩⟩ "t1" rfl

/-- Claim C7: `clone_from_state` returns a new searcher whose ledger
state and skip-optimization cache are exactly the snapshot's, and
invalidates the original: its state-transformer handle becomes `None`,
after which every state-mutating operation on the original
(`register_pending`, `evaluation_failed`, and a second
`clone_from_state`) fails without touching any state. -/
theorem clone_from_state_spec (s : Searcher) (ts : TransformerState)
    (snap : SerializedState) (hvalid : s.state_transformer = some ts) :
    ∃ newS oldS, s.clone_from_state snap = .ok (newS, oldS) ∧
      newS.state_transformer = some ⟨snap.state, snap.skip_optimization⟩ ∧
      oldS.state_transformer = none ∧
      (∀ t cfg r, oldS.register_pending t cfg (some r) =
        .error .invalidatedSearcher) ∧
      (∀ t, oldS.evaluation_failed t = .error .invalidatedSearcher) ∧
      (∀ snap2, oldS.clone_from_state snap2 = .error .invalidatedSearcher) := by
  refine ⟨⟨some ⟨snap.state, snap.skip_optimization⟩⟩,
    { s with state_transformer := none }, ?_, rfl, rfl, ?_, ?_, ?_⟩
  · simp only [Searcher.clone_from_state, hvalid]
  · intro t cfg r
    rfl
  · intro t
    rfl
  · intro snap2
    rfl

/-- Witness for C7 at the demo searcher and a distinct snapshot. -/
theorem clone_from_state_spec_witness :
    ∃ newS oldS, demoSearcher.clone_from_state
        ⟨{ demoLedger with failed := ["t9"] }, ⟨[]⟩⟩ = .ok (newS, oldS) ∧
      newS.state_transformer = some ⟨{ demoLedger with failed := ["t9"] }, ⟨[]⟩⟩ ∧
      oldS.state_transformer = none ∧
      (∀ t cfg r, oldS.register_pending t cfg (some r) =
        .error .invalidatedSearcher) ∧
      (∀ t, oldS.evaluation_failed t = .error .invalidatedSearcher) ∧
      (∀ snap2, oldS.clone_from_state snap2 = .error .invalidatedSearcher) :=
  clone_from_state_spec demoSearcher ⟨demoLedger, ⟨[("noise", 1)]⟩⟩
    ⟨{ demoLedger with failed := ["t9"] }, ⟨[]⟩⟩ rfl

end SyneTune
